import Mathlib

/-!
Verification of the PQ-TLS handshake subsystem
(`src/Homework/second/ex1/src/{protocol,crypto,client,server}.rs`).

Bytes are modelled as `Fin 256`. The wire encoding follows bincode 1.x
defaults (little-endian fixed-width integers, `u64` length prefixes for
vectors and strings, `u32` variant indices for enums, raw bytes for fixed
arrays); trailing bytes after a complete value are tolerated, as
`bincode::deserialize` tolerates them. The external cryptographic
primitives (SHA3-256, ML-KEM-768, ML-DSA-65, AES-256-GCM) are not part of
the repository; they are modelled as bundled scheme structures whose
fields record exactly the functional correctness contracts the protocol
code relies on, and the protocol logic itself is translated line by line
from the Rust source.
-/

namespace PqTls

/-- Bytes are naturals below 256. -/
abbrev Byte := Fin 256

/-- Truncate a natural to a byte, as Rust integer casts do. -/
def byte (n : Nat) : Byte := ⟨n % 256, Nat.mod_lt _ (by decide)⟩

/-- XOR of two bytes (`^=` in the Rust nonce computation). -/
def bxor (a b : Byte) : Byte :=
  ⟨a.val ^^^ b.val, Nat.xor_lt_two_pow (n := 8) a.isLt b.isLt⟩

/-- Little-endian encoding of `v` on `k` bytes (bincode fixint layout). -/
def leBytes : Nat → Nat → List Byte
  | 0, _ => []
  | k + 1, v => byte v :: leBytes k (v / 256)

/-- Value of a little-endian byte string. -/
def leNum : List Byte → Nat
  | [] => 0
  | b :: bs => b.val + 256 * leNum bs

/-- Big-endian encoding on `k` bytes (`u64::to_be_bytes`). -/
def beBytes (k v : Nat) : List Byte := (leBytes k v).reverse

/-- ASCII bytes of a string literal such as `b"client write key"`. -/
def ascii (s : String) : List Byte := s.data.map (fun c => byte c.toNat)

/-- Read exactly `k` bytes from the front of a buffer. -/
def readBytes (k : Nat) (s : List Byte) : Option (List Byte × List Byte) :=
  if k ≤ s.length then some (s.take k, s.drop k) else none

/-- Read a `k`-byte little-endian unsigned integer. -/
def readNat (k : Nat) (s : List Byte) : Option (Nat × List Byte) :=
  (readBytes k s).map (fun p => (leNum p.1, p.2))

/-- Serialize a `u16` (bincode: 2 bytes little-endian). -/
def serU16 (v : Nat) : List Byte := leBytes 2 v

/-- Serialize a `u32` (bincode: 4 bytes little-endian). -/
def serU32 (v : Nat) : List Byte := leBytes 4 v

/-- Serialize a `u64` (bincode: 8 bytes little-endian). -/
def serU64 (v : Nat) : List Byte := leBytes 8 v

/-- Serialize a `Vec<u8>` (bincode: u64 length then the raw bytes). -/
def serVecU8 (b : List Byte) : List Byte := serU64 b.length ++ b

/-- Read a `Vec<u8>`. -/
def readVecU8 (s : List Byte) : Option (List Byte × List Byte) :=
  match readNat 8 s with
  | none => none
  | some (n, s1) => readBytes n s1

/-- The `MessageType` enum of `protocol.rs`. -/
inductive MessageType where
  | clientHello
  | serverHello
  | certificate
  | certificateVerify
  | finished
  | applicationData
deriving DecidableEq

/-- Serde variant index of a `MessageType` (declaration order). -/
def MessageType.index : MessageType → Nat
  | .clientHello => 0
  | .serverHello => 1
  | .certificate => 2
  | .certificateVerify => 3
  | .finished => 4
  | .applicationData => 5

/-- Decode a serde variant index into a `MessageType`. -/
def MessageType.ofIndex : Nat → Option MessageType
  | 0 => some .clientHello
  | 1 => some .serverHello
  | 2 => some .certificate
  | 3 => some .certificateVerify
  | 4 => some .finished
  | 5 => some .applicationData
  | _ => none

/-- The `CipherSuite` enum of `protocol.rs`. -/
inductive CipherSuite where
  | mlKem512MlDsa44Aes256Gcm
  | mlKem768MlDsa65Aes256Gcm
  | mlKem1024MlDsa87Aes256Gcm
deriving DecidableEq

/-- Serde variant index of a `CipherSuite`. -/
def CipherSuite.index : CipherSuite → Nat
  | .mlKem512MlDsa44Aes256Gcm => 0
  | .mlKem768MlDsa65Aes256Gcm => 1
  | .mlKem1024MlDsa87Aes256Gcm => 2

/-- Decode a serde variant index into a `CipherSuite`. -/
def CipherSuite.ofIndex : Nat → Option CipherSuite
  | 0 => some .mlKem512MlDsa44Aes256Gcm
  | 1 => some .mlKem768MlDsa65Aes256Gcm
  | 2 => some .mlKem1024MlDsa87Aes256Gcm
  | _ => none

/-- The `Extension` enum of `protocol.rs`; the `ServerName` hostname is
kept as its UTF-8 bytes. -/
inductive Extension where
  | keyShare (encapsulation_key : List Byte)
  | keyShareCiphertext (ciphertext : List Byte)
  | serverName (hostname : List Byte)
  | supportedVersions (versions : List Nat)
deriving DecidableEq

/-- Serialize an `Extension` (u32 variant index, then the payload). -/
def serExtension : Extension → List Byte
  | .keyShare ek => serU32 0 ++ serVecU8 ek
  | .keyShareCiphertext ct => serU32 1 ++ serVecU8 ct
  | .serverName h => serU32 2 ++ serVecU8 h
  | .supportedVersions vs => serU32 3 ++ serU64 vs.length ++ (vs.map serU16).flatten

/-- Parse a list of `u16` versions. -/
def parseVersions : Nat → List Byte → Option (List Nat × List Byte)
  | 0, s => some ([], s)
  | n + 1, s =>
    match readNat 2 s with
    | none => none
    | some (v, s1) =>
      match parseVersions n s1 with
      | none => none
      | some (vs, s2) => some (v :: vs, s2)

/-- Parse one `Extension`. -/
def parseExtension (s : List Byte) : Option (Extension × List Byte) :=
  match readNat 4 s with
  | none => none
  | some (0, s1) => (readVecU8 s1).map (fun p => (.keyShare p.1, p.2))
  | some (1, s1) => (readVecU8 s1).map (fun p => (.keyShareCiphertext p.1, p.2))
  | some (2, s1) => (readVecU8 s1).map (fun p => (.serverName p.1, p.2))
  | some (3, s1) =>
    match readNat 8 s1 with
    | none => none
    | some (n, s2) => (parseVersions n s2).map (fun p => (.supportedVersions p.1, p.2))
  | some (_, _) => none

/-- Parse `n` values with parser `p`. -/
def parseCount (p : List Byte → Option (α × List Byte)) :
    Nat → List Byte → Option (List α × List Byte)
  | 0, s => some ([], s)
  | n + 1, s =>
    match p s with
    | none => none
    | some (a, s1) =>
      match parseCount p n s1 with
      | none => none
      | some (as, s2) => some (a :: as, s2)

/-- Parse one `CipherSuite`. -/
def parseCipherSuite (s : List Byte) : Option (CipherSuite × List Byte) :=
  match readNat 4 s with
  | none => none
  | some (v, s1) =>
    match CipherSuite.ofIndex v with
    | none => none
    | some cs => some (cs, s1)

/-- The constant `PQ_TLS_VERSION` of `protocol.rs`. -/
def PQ_TLS_VERSION : Nat := 0x0304

/-- The `ClientHello` payload structure. -/
structure ClientHello where
  version : Nat
  random : List Byte
  cipher_suites : List CipherSuite
  extensions : List Extension
deriving DecidableEq

/-- The `ServerHello` payload structure. -/
structure ServerHello where
  version : Nat
  random : List Byte
  cipher_suite : CipherSuite
  extensions : List Extension
deriving DecidableEq

/-- The `Certificate` payload structure (bare ML-DSA verifying key). -/
structure Certificate where
  verifying_key : List Byte
deriving DecidableEq

/-- The `CertificateVerify` payload structure. -/
structure CertificateVerify where
  signature : List Byte
deriving DecidableEq

/-- The `Finished` payload structure (32-byte verify data). -/
structure Finished where
  verify_data : List Byte
deriving DecidableEq

/-- The `ApplicationData` payload structure. -/
structure ApplicationData where
  ciphertext : List Byte
  nonce : List Byte
  tag : List Byte
deriving DecidableEq

/-- The `HandshakeMessage` wrapper of `protocol.rs`. -/
structure HandshakeMessage where
  msg_type : MessageType
  payload : List Byte
deriving DecidableEq

/-- Serialize a `ClientHello` payload. -/
def serClientHello (c : ClientHello) : List Byte :=
  serU16 c.version ++ c.random ++
  serU64 c.cipher_suites.length ++ (c.cipher_suites.map (fun cs => serU32 cs.index)).flatten ++
  serU64 c.extensions.length ++ (c.extensions.map serExtension).flatten

/-- Parse a `ClientHello` payload (trailing bytes tolerated). -/
def parseClientHello (s : List Byte) : Option ClientHello :=
  match readNat 2 s with
  | none => none
  | some (v, s1) =>
    match readBytes 32 s1 with
    | none => none
    | some (r, s2) =>
      match readNat 8 s2 with
      | none => none
      | some (n, s3) =>
        match parseCount parseCipherSuite n s3 with
        | none => none
        | some (css, s4) =>
          match readNat 8 s4 with
          | none => none
          | some (m, s5) =>
            match parseCount parseExtension m s5 with
            | none => none
            | some (exts, _) => some ⟨v, r, css, exts⟩

/-- Serialize a `ServerHello` payload. -/
def serServerHello (c : ServerHello) : List Byte :=
  serU16 c.version ++ c.random ++ serU32 c.cipher_suite.index ++
  serU64 c.extensions.length ++ (c.extensions.map serExtension).flatten

/-- Parse a `ServerHello` payload (trailing bytes tolerated). -/
def parseServerHello (s : List Byte) : Option ServerHello :=
  match readNat 2 s with
  | none => none
  | some (v, s1) =>
    match readBytes 32 s1 with
    | none => none
    | some (r, s2) =>
      match parseCipherSuite s2 with
      | none => none
      | some (cs, s3) =>
        match readNat 8 s3 with
        | none => none
        | some (m, s4) =>
          match parseCount parseExtension m s4 with
          | none => none
          | some (exts, _) => some ⟨v, r, cs, exts⟩

/-- Serialize a `Certificate` payload. -/
def serCertificate (c : Certificate) : List Byte := serVecU8 c.verifying_key

/-- Parse a `Certificate` payload. -/
def parseCertificate (s : List Byte) : Option Certificate :=
  (readVecU8 s).map (fun p => ⟨p.1⟩)

/-- Serialize a `CertificateVerify` payload. -/
def serCertificateVerify (c : CertificateVerify) : List Byte := serVecU8 c.signature

/-- Parse a `CertificateVerify` payload. -/
def parseCertificateVerify (s : List Byte) : Option CertificateVerify :=
  (readVecU8 s).map (fun p => ⟨p.1⟩)

/-- Serialize a `Finished` payload (`[u8; 32]` is 32 raw bytes). -/
def serFinished (c : Finished) : List Byte := c.verify_data

/-- Parse a `Finished` payload. -/
def parseFinished (s : List Byte) : Option Finished :=
  (readBytes 32 s).map (fun p => ⟨p.1⟩)

/-- Serialize an `ApplicationData` payload. -/
def serApplicationData (a : ApplicationData) : List Byte :=
  serVecU8 a.ciphertext ++ serVecU8 a.nonce ++ serVecU8 a.tag

/-- Parse an `ApplicationData` payload. -/
def parseApplicationData (s : List Byte) : Option ApplicationData :=
  match readVecU8 s with
  | none => none
  | some (ct, s1) =>
    match readVecU8 s1 with
    | none => none
    | some (n, s2) =>
      match readVecU8 s2 with
      | none => none
      | some (t, _) => some ⟨ct, n, t⟩

/-- `HandshakeMessage::serialize`: variant index of the type tag, then the
payload as a `Vec<u8>`. -/
def serializeHM (m : HandshakeMessage) : List Byte :=
  serU32 m.msg_type.index ++ serVecU8 m.payload

/-- `HandshakeMessage::deserialize` (trailing bytes tolerated, as by
`bincode::deserialize`). -/
def deserializeHM (s : List Byte) : Option HandshakeMessage :=
  match readNat 4 s with
  | none => none
  | some (v, s1) =>
    match MessageType.ofIndex v with
    | none => none
    | some t =>
      match readVecU8 s1 with
      | none => none
      | some (p, _) => some ⟨t, p⟩

/-- Model of SHA3-256: an arbitrary deterministic function producing a
32-byte digest. Streamed `update` calls hash the concatenation of their
inputs, so all uses in the source reduce to one application of `h`. -/
structure HashFn where
  h : List Byte → List Byte
  len_h : ∀ x, (h x).length = 32

/-- The `CryptoError` enum of `crypto.rs`. -/
inductive CryptoError where
  | encryptionError
  | decryptionError
  | invalidKeyLength
deriving DecidableEq

/-- The `KeySchedule` of `crypto.rs`: a single 32-byte master secret. -/
structure KeySchedule where
  master_secret : List Byte
deriving DecidableEq

/-- `KeySchedule::new`: hash the shared secret alone. -/
def KeySchedule.new (H : HashFn) (shared_secret : List Byte) : KeySchedule :=
  ⟨H.h shared_secret⟩

/-- `KeySchedule::hkdf_expand`: `Hash(master_secret || info)`. -/
def KeySchedule.hkdf_expand (H : HashFn) (ks : KeySchedule) (info : List Byte) :
    List Byte :=
  H.h (ks.master_secret ++ info)

/-- `KeySchedule::derive_client_write_key`. -/
def KeySchedule.derive_client_write_key (H : HashFn) (ks : KeySchedule) : List Byte :=
  ks.hkdf_expand H (ascii "client write key")

/-- `KeySchedule::derive_server_write_key`. -/
def KeySchedule.derive_server_write_key (H : HashFn) (ks : KeySchedule) : List Byte :=
  ks.hkdf_expand H (ascii "server write key")

/-- `KeySchedule::derive_client_write_iv` (first 12 bytes of the expand). -/
def KeySchedule.derive_client_write_iv (H : HashFn) (ks : KeySchedule) : List Byte :=
  (ks.hkdf_expand H (ascii "client write iv")).take 12

/-- `KeySchedule::derive_server_write_iv` (first 12 bytes of the expand). -/
def KeySchedule.derive_server_write_iv (H : HashFn) (ks : KeySchedule) : List Byte :=
  (ks.hkdf_expand H (ascii "server write iv")).take 12

/-- `KeySchedule::derive_finished_key`. -/
def KeySchedule.derive_finished_key (H : HashFn) (ks : KeySchedule)
    (label : List Byte) : List Byte :=
  ks.hkdf_expand H label

/-- Transcript hash: one SHA3 over the concatenation of the appended
handshake-record byte strings. -/
def transcriptHash (H : HashFn) (msgs : List (List Byte)) : List Byte :=
  H.h msgs.flatten

/-- `compute_verify_data` of `crypto.rs`:
`Hash(finished_key || Hash(transcript concatenation))`. -/
def compute_verify_data (H : HashFn) (finished_key : List Byte)
    (handshake_messages : List (List Byte)) : List Byte :=
  H.h (finished_key ++ transcriptHash H handshake_messages)

/-- Model of AES-256-GCM. `enc key nonce plaintext` returns the
ciphertext with the authentication tag embedded; `dec` returns `none` on
authentication failure. `dec_enc` is AEAD correctness; `enc_nonce_inj`
records that equal ciphertexts under one key and plaintext force equal
(equal-length) nonces, which holds for AES-GCM because the tag masks the
encrypted initial counter block and the block cipher is a permutation.
Encryption of in-memory buffers with 12-byte nonces never fails in
`aes_gcm`, so `enc` is total. -/
structure AEADScheme where
  enc : List Byte → List Byte → List Byte → List Byte
  dec : List Byte → List Byte → List Byte → Option (List Byte)
  dec_enc : ∀ k n pt, dec k n (enc k n pt) = some pt
  enc_nonce_inj : ∀ k n1 n2 pt, enc k n1 pt = enc k n2 pt →
    n1.length = n2.length → n1 = n2

/-- The `TrafficCipher` state of `crypto.rs`: key, 12-byte base IV and a
`u64` sequence counter. -/
structure TrafficCipher where
  key : List Byte
  iv : List Byte
  sequence_number : Nat
deriving DecidableEq

/-- `TrafficCipher::new`. -/
def TrafficCipher.new (key iv : List Byte) : TrafficCipher :=
  ⟨key, iv, 0⟩

/-- `TrafficCipher::compute_nonce`: copy the IV and XOR its bytes at
positions `4..11` with the big-endian `u64` sequence number. -/
def TrafficCipher.compute_nonce (tc : TrafficCipher) : List Byte :=
  tc.iv.take 4 ++ List.zipWith bxor (tc.iv.drop 4) (beBytes 8 (tc.sequence_number % 2 ^ 64))

/-- `TrafficCipher::encrypt`: AEAD-encrypt under the computed nonce, then
increment the sequence counter; returns (ciphertext, nonce) and the
successor state. -/
def TrafficCipher.encrypt (A : AEADScheme) (tc : TrafficCipher) (plaintext : List Byte) :
    (List Byte × List Byte) × TrafficCipher :=
  let nonce := tc.compute_nonce
  ((A.enc tc.key nonce plaintext, nonce),
   { tc with sequence_number := tc.sequence_number + 1 })

/-- `TrafficCipher::decrypt`: reject nonces that are not 12 bytes, run
AEAD decryption, and increment the sequence counter on the success path;
the two failure paths return early without touching the counter. -/
def TrafficCipher.decrypt (A : AEADScheme) (tc : TrafficCipher)
    (ciphertext nonce : List Byte) : Except CryptoError (List Byte) × TrafficCipher :=
  if nonce.length ≠ 12 then (.error .decryptionError, tc)
  else
    match A.dec tc.key nonce ciphertext with
    | none => (.error .decryptionError, tc)
    | some plaintext =>
      (.ok plaintext, { tc with sequence_number := tc.sequence_number + 1 })

/-- Model of ML-KEM-768. `keygen seed` returns the (decapsulation key,
encoded encapsulation key) pair; `ekValid` and `ctValid` are the
`try_into` size checks on encoded keys and ciphertexts; `encaps rng ek`
returns a (ciphertext, shared secret) pair; `decaps` recovers the shared
secret. The propositional fields record KEM correctness as relied on by
the handshake. -/
structure KEMScheme where
  keygen : Nat → List Byte × List Byte
  ekValid : List Byte → Bool
  ctValid : List Byte → Bool
  encaps : Nat → List Byte → Option (List Byte × List Byte)
  decaps : List Byte → List Byte → Option (List Byte)
  ekValid_keygen : ∀ s, ekValid (keygen s).2 = true
  ctValid_encaps : ∀ r ek ct ss, encaps r ek = some (ct, ss) → ctValid ct = true
  decaps_encaps : ∀ s r ct ss, encaps r (keygen s).2 = some (ct, ss) →
    decaps (keygen s).1 ct = some ss

/-- Model of ML-DSA-65. `keygen seed` returns the (signing key, encoded
verifying key) pair; `vkValid` is the encoded-key size check, `sigValid`
the signature size and decode checks; `verify vk msg sig` checks `sig`
over `msg` under the encoded key `vk`. The propositional fields record
signature-scheme correctness. -/
structure SIGScheme where
  keygen : Nat → List Byte × List Byte
  vkValid : List Byte → Bool
  sigValid : List Byte → Bool
  sign : List Byte → List Byte → List Byte
  verify : List Byte → List Byte → List Byte → Bool
  vkValid_keygen : ∀ s, vkValid (keygen s).2 = true
  sigValid_sign : ∀ sk m, sigValid (sign sk m) = true
  verify_sign : ∀ s m, verify (keygen s).2 m (sign (keygen s).1 m) = true

/-- The `ClientError` enum of `client.rs`. -/
inductive ClientError where
  | handshakeFailed (msg : String)
  | cryptoError (e : CryptoError)
  | serializationError
  | invalidMessageType
  | signatureVerificationFailed
  | finishedVerificationFailed
deriving DecidableEq

/-- The `ServerError` enum of `server.rs`. -/
inductive ServerError where
  | handshakeFailed (msg : String)
  | cryptoError (e : CryptoError)
  | serializationError
  | invalidMessageType
  | signatureVerificationFailed
deriving DecidableEq

/-- The `ClientConfig` of `client.rs` (hostname as UTF-8 bytes). -/
structure ClientConfig where
  cipher_suites : List CipherSuite
  server_name : Option (List Byte)

/-- `ClientConfig::default`. -/
def ClientConfig.default : ClientConfig :=
  ⟨[.mlKem768MlDsa65Aes256Gcm], none⟩

/-- The `ServerConfig` of `server.rs`. -/
structure ServerConfig where
  cipher_suites : List CipherSuite

/-- `ServerConfig::default`. -/
def ServerConfig.default : ServerConfig :=
  ⟨[.mlKem768MlDsa65Aes256Gcm]⟩

/-- The `ClientHandshakeState` of `client.rs`. -/
structure ClientHandshakeState where
  decapsulation_key : List Byte
  client_random : List Byte
  handshake_messages : List (List Byte)
deriving DecidableEq

/-- The `ClientSession` of `client.rs` (the verifying key is kept in its
encoded form). -/
structure ClientSession where
  key_schedule : KeySchedule
  write_cipher : TrafficCipher
  read_cipher : TrafficCipher
  client_finished_data : List Byte
  client_random : List Byte
  server_random : List Byte
  server_verifying_key : List Byte
deriving DecidableEq

/-- The `ServerSession` of `server.rs`. -/
structure ServerSession where
  key_schedule : KeySchedule
  write_cipher : TrafficCipher
  read_cipher : TrafficCipher
  handshake_messages : List (List Byte)
  client_random : List Byte
  server_random : List Byte
deriving DecidableEq

/-- First `KeyShareCiphertext` extension payload (`find_map` in
`client.rs`). -/
def findKeyShareCiphertext : List Extension → Option (List Byte)
  | [] => none
  | .keyShareCiphertext ct :: _ => some ct
  | _ :: rest => findKeyShareCiphertext rest

/-- First `KeyShare` extension payload (`find_map` in `server.rs`). -/
def findKeyShare : List Extension → Option (List Byte)
  | [] => none
  | .keyShare ek :: _ => some ek
  | _ :: rest => findKeyShare rest

/-- `Client::start_handshake`: generate the ML-KEM key pair from `seed`,
build the ClientHello with the given 32-byte `client_random`, and return
the stored state and the encoded record. Serialization of an in-memory
structure cannot fail, so the `Result` of the source is always `Ok`. -/
def Client.start_handshake (K : KEMScheme) (cfg : ClientConfig) (seed : Nat)
    (client_random : List Byte) : ClientHandshakeState × List Byte :=
  let dk := (K.keygen seed).1
  let ek := (K.keygen seed).2
  let extensions :=
    [Extension.keyShare ek] ++
    (match cfg.server_name with
     | some h => [Extension.serverName h]
     | none => []) ++
    [Extension.supportedVersions [PQ_TLS_VERSION]]
  let client_hello : ClientHello :=
    ⟨PQ_TLS_VERSION, client_random, cfg.cipher_suites, extensions⟩
  let client_hello_data := serializeHM ⟨.clientHello, serClientHello client_hello⟩
  (⟨dk, client_random, [client_hello_data]⟩, client_hello_data)

/-- `Client::complete_handshake`, translated step by step from
`client.rs` lines 94-220; the nested matches mirror the early returns of
the `?` operator, and the transcript pushes happen exactly where the
source pushes to `handshake_messages`. -/
def Client.complete_handshake (H : HashFn) (K : KEMScheme) (S : SIGScheme)
    (state : ClientHandshakeState) (server_messages : List (List Byte)) :
    Except ClientError ClientSession :=
  if server_messages.length < 4 then
    .error (.handshakeFailed "Incomplete server response")
  else
    match server_messages with
    | m0 :: m1 :: m2 :: m3 :: _ =>
      -- 1. Parse ServerHello
      match deserializeHM m0 with
      | none => .error .serializationError
      | some server_hello_msg =>
        if server_hello_msg.msg_type ≠ .serverHello then .error .invalidMessageType
        else
          let hm1 := state.handshake_messages ++ [m0]
          match parseServerHello server_hello_msg.payload with
          | none => .error .serializationError
          | some server_hello =>
            -- 2. Extract ML-KEM ciphertext
            match findKeyShareCiphertext server_hello.extensions with
            | none => .error (.handshakeFailed "No key share ciphertext")
            | some ciphertext_bytes =>
              -- 3. Decapsulate to get shared secret
              if ¬ K.ctValid ciphertext_bytes then
                .error (.handshakeFailed "Invalid ciphertext size")
              else
                match K.decaps state.decapsulation_key ciphertext_bytes with
                | none => .error (.handshakeFailed "Decapsulation failed")
                | some shared_secret =>
                  -- 4. Parse Certificate
                  match deserializeHM m1 with
                  | none => .error .serializationError
                  | some certificate_msg =>
                    if certificate_msg.msg_type ≠ .certificate then
                      .error .invalidMessageType
                    else
                      let hm2 := hm1 ++ [m1]
                      match parseCertificate certificate_msg.payload with
                      | none => .error .serializationError
                      | some certificate =>
                        if ¬ S.vkValid certificate.verifying_key then
                          .error (.handshakeFailed "Invalid verifying key format")
                        else
                          -- 5. Parse and verify CertificateVerify
                          match deserializeHM m2 with
                          | none => .error .serializationError
                          | some cert_verify_msg =>
                            if cert_verify_msg.msg_type ≠ .certificateVerify then
                              .error .invalidMessageType
                            else
                              match parseCertificateVerify cert_verify_msg.payload with
                              | none => .error .serializationError
                              | some cert_verify =>
                                -- transcript hash WITHOUT CertificateVerify
                                let transcript_hash := transcriptHash H hm2
                                if ¬ S.sigValid cert_verify.signature then
                                  .error (.handshakeFailed "Invalid signature format")
                                else if ¬ S.verify certificate.verifying_key
                                    transcript_hash cert_verify.signature then
                                  .error .signatureVerificationFailed
                                else
                                  -- NOW add CertificateVerify to transcript
                                  let hm3 := hm2 ++ [m2]
                                  -- 6. Derive keys
                                  let key_schedule := KeySchedule.new H shared_secret
                                  let server_finished_key :=
                                    key_schedule.derive_finished_key H (ascii "server finished")
                                  let client_finished_key :=
                                    key_schedule.derive_finished_key H (ascii "client finished")
                                  -- 7. Parse and verify server Finished
                                  match deserializeHM m3 with
                                  | none => .error .serializationError
                                  | some server_finished_msg =>
                                    if server_finished_msg.msg_type ≠ .finished then
                                      .error .invalidMessageType
                                    else
                                      let hm4 := hm3 ++ [m3]
                                      match parseFinished server_finished_msg.payload with
                                      | none => .error .serializationError
                                      | some server_finished =>
                                        let expected_verify_data :=
                                          compute_verify_data H server_finished_key hm4
                                        if server_finished.verify_data ≠ expected_verify_data then
                                          .error .finishedVerificationFailed
                                        else
                                          -- 8. Send client Finished
                                          let client_verify_data :=
                                            compute_verify_data H client_finished_key hm4
                                          let client_finished_data :=
                                            serializeHM ⟨.finished, serFinished ⟨client_verify_data⟩⟩
                                          -- 9. Create session
                                          .ok {
                                            key_schedule := key_schedule,
                                            write_cipher := TrafficCipher.new
                                              (key_schedule.derive_client_write_key H)
                                              (key_schedule.derive_client_write_iv H),
                                            read_cipher := TrafficCipher.new
                                              (key_schedule.derive_server_write_key H)
                                              (key_schedule.derive_server_write_iv H),
                                            client_finished_data := client_finished_data,
                                            client_random := state.client_random,
                                            server_random := server_hello.random,
                                            server_verifying_key := certificate.verifying_key }
    | _ => .error (.handshakeFailed "Incomplete server response")

/-- The `Server` of `server.rs` (keys in encoded form). -/
structure Server where
  signing_key : List Byte
  verifying_key : List Byte
  config : ServerConfig

/-- `Server::handshake`, translated step by step from `server.rs` lines
73-191. `seed` feeds the encapsulation RNG and `server_random` is the
generated 32-byte random. -/
def Server.handshake (H : HashFn) (K : KEMScheme) (S : SIGScheme) (srv : Server)
    (seed : Nat) (server_random : List Byte) (client_hello_data : List Byte) :
    Except ServerError ServerSession :=
  let hm0 := [client_hello_data]
  -- 1. Parse ClientHello
  match deserializeHM client_hello_data with
  | none => .error .serializationError
  | some client_hello_msg =>
    if client_hello_msg.msg_type ≠ .clientHello then .error .invalidMessageType
    else
      match parseClientHello client_hello_msg.payload with
      | none => .error .serializationError
      | some client_hello =>
        -- 2. Select cipher suite
        match srv.config.cipher_suites.find?
            (fun cs => client_hello.cipher_suites.contains cs) with
        | none => .error (.handshakeFailed "No common cipher suite")
        | some cipher_suite =>
          -- 3. Extract client's ML-KEM encapsulation key
          match findKeyShare client_hello.extensions with
          | none => .error (.handshakeFailed "No key share")
          | some client_kem_ek =>
            -- 4. Perform ML-KEM encapsulation
            if ¬ K.ekValid client_kem_ek then
              .error (.handshakeFailed "Invalid encapsulation key")
            else
              match K.encaps seed client_kem_ek with
              | none => .error (.handshakeFailed "Encapsulation failed")
              | some (ciphertext, shared_secret) =>
                -- 5. Create ServerHello
                let server_hello : ServerHello :=
                  ⟨PQ_TLS_VERSION, server_random, cipher_suite,
                   [.keyShareCiphertext ciphertext]⟩
                let server_hello_data :=
                  serializeHM ⟨.serverHello, serServerHello server_hello⟩
                let hm1 := hm0 ++ [server_hello_data]
                -- 6. Send Certificate
                let certificate_data :=
                  serializeHM ⟨.certificate, serCertificate ⟨srv.verifying_key⟩⟩
                let hm2 := hm1 ++ [certificate_data]
                -- 7. Create and sign CertificateVerify
                let transcript_hash := transcriptHash H hm2
                let signature := S.sign srv.signing_key transcript_hash
                let cert_verify_data :=
                  serializeHM ⟨.certificateVerify, serCertificateVerify ⟨signature⟩⟩
                let hm3 := hm2 ++ [cert_verify_data]
                -- 8. Derive keys
                let key_schedule := KeySchedule.new H shared_secret
                let server_finished_key :=
                  key_schedule.derive_finished_key H (ascii "server finished")
                -- 9. Send Finished
                let verify_data := compute_verify_data H server_finished_key hm3
                let finished_data :=
                  serializeHM ⟨.finished, serFinished ⟨verify_data⟩⟩
                -- 10. Create session
                .ok {
                  key_schedule := key_schedule,
                  write_cipher := TrafficCipher.new
                    (key_schedule.derive_server_write_key H)
                    (key_schedule.derive_server_write_iv H),
                  read_cipher := TrafficCipher.new
                    (key_schedule.derive_client_write_key H)
                    (key_schedule.derive_client_write_iv H),
                  handshake_messages :=
                    [server_hello_data, certificate_data, cert_verify_data, finished_data],
                  client_random := client_hello.random,
                  server_random := server_random }

/-- `ClientSession::send`: encrypt, wrap in `ApplicationData`, wrap in a
handshake record. Serialization is total in the model. -/
def ClientSession.send (A : AEADScheme) (s : ClientSession) (data : List Byte) :
    List Byte × ClientSession :=
  let r := s.write_cipher.encrypt A data
  let payload := serApplicationData ⟨r.1.1, r.1.2, []⟩
  (serializeHM ⟨.applicationData, payload⟩, { s with write_cipher := r.2 })

/-- `ServerSession::receive`: unwrap the record and `ApplicationData`
payload and decrypt with the read cipher. -/
def ServerSession.receive (A : AEADScheme) (s : ServerSession) (data : List Byte) :
    Except ServerError (List Byte) × ServerSession :=
  match deserializeHM data with
  | none => (.error .serializationError, s)
  | some msg =>
    if msg.msg_type ≠ .applicationData then (.error .invalidMessageType, s)
    else
      match parseApplicationData msg.payload with
      | none => (.error .serializationError, s)
      | some app_data =>
        match s.read_cipher.decrypt A app_data.ciphertext app_data.nonce with
        | (.ok pt, rc) => (.ok pt, { s with read_cipher := rc })
        | (.error e, rc) => (.error (.cryptoError e), { s with read_cipher := rc })

/-- Length of a little-endian encoding. -/
theorem leBytes_length (k v : Nat) : (leBytes k v).length = k := by
  induction k generalizing v with
  | zero => rfl
  | succ k ih => simp [leBytes, ih]

/-- Value of a little-endian encoding. -/
theorem leNum_leBytes (k v : Nat) : leNum (leBytes k v) = v % 256 ^ k := by
  induction k generalizing v with
  | zero => simp [leBytes, leNum, Nat.mod_one]
  | succ k ih =>
    simp only [leBytes, leNum, ih, byte]
    rw [pow_succ', Nat.mod_mul]

/-- Taking the length of the left part of an append returns it. -/
theorem take_append_len {α : Type} (xs ys : List α) (k : Nat) (h : xs.length = k) :
    (xs ++ ys).take k = xs := by
  subst h
  simp

/-- Dropping the length of the left part of an append removes it. -/
theorem drop_append_len {α : Type} (xs ys : List α) (k : Nat) (h : xs.length = k) :
    (xs ++ ys).drop k = ys := by
  subst h
  simp

/-- Well-formedness of an `Extension`: lengths representable in the
`u64`/`u16` fields of the wire format. -/
def Extension.WF : Extension → Prop
  | .keyShare ek => ek.length < 2 ^ 64
  | .keyShareCiphertext ct => ct.length < 2 ^ 64
  | .serverName h => h.length < 2 ^ 64
  | .supportedVersions vs => vs.length < 2 ^ 64 ∧ ∀ v ∈ vs, v < 2 ^ 16

instance (e : Extension) : Decidable e.WF :=
  match e with
  | .keyShare ek => inferInstanceAs (Decidable (ek.length < 2 ^ 64))
  | .keyShareCiphertext ct => inferInstanceAs (Decidable (ct.length < 2 ^ 64))
  | .serverName h => inferInstanceAs (Decidable (h.length < 2 ^ 64))
  | .supportedVersions vs =>
    inferInstanceAs (Decidable (vs.length < 2 ^ 64 ∧ ∀ v ∈ vs, v < 2 ^ 16))

/-- Well-formedness of a `ServerHello` structure. -/
def ServerHello.WF (sh : ServerHello) : Prop :=
  sh.version < 2 ^ 16 ∧ sh.random.length = 32 ∧
  sh.extensions.length < 2 ^ 64 ∧ ∀ e ∈ sh.extensions, e.WF

instance (sh : ServerHello) : Decidable sh.WF :=
  inferInstanceAs (Decidable (_ ∧ _ ∧ _ ∧ _))

/-- Reading exactly the first summand of an append. -/
theorem readBytes_exact (xs ys : List Byte) (k : Nat) (h : xs.length = k) :
    readBytes k (xs ++ ys) = some (xs, ys) := by
  subst h
  simp [readBytes, take_append_len _ _ _ rfl, drop_append_len _ _ _ rfl]

/-- Reading back a little-endian number. -/
theorem readNat_leBytes (k v : Nat) (ys : List Byte) :
    readNat k (leBytes k v ++ ys) = some (v % 256 ^ k, ys) := by
  simp [readNat, readBytes_exact _ _ _ (leBytes_length k v), leNum_leBytes]

/-- `256 ^ 8` and `2 ^ 64` are the same bound. -/
theorem pow256_8 : (256 : Nat) ^ 8 = 2 ^ 64 := by norm_num

/-- `256 ^ 4` and `2 ^ 32` are the same bound. -/
theorem pow256_4 : (256 : Nat) ^ 4 = 2 ^ 32 := by norm_num

/-- `256 ^ 2` and `2 ^ 16` are the same bound. -/
theorem pow256_2 : (256 : Nat) ^ 2 = 2 ^ 16 := by norm_num

/-- Reading back a serialized `Vec<u8>`. -/
theorem readVecU8_ser (b ys : List Byte) (h : b.length < 2 ^ 64) :
    readVecU8 (serVecU8 b ++ ys) = some (b, ys) := by
  simp only [serVecU8, serU64, List.append_assoc, readVecU8, readNat_leBytes,
    pow256_8, Nat.mod_eq_of_lt h]
  exact readBytes_exact _ _ _ rfl

/-- Variant-index decoding inverts encoding for message types, through
the `u32` truncation of the wire read. -/
theorem msgType_ofIndex_mod_index (t : MessageType) :
    MessageType.ofIndex (t.index % 256 ^ 4) = some t := by
  cases t <;> rfl

/-- Variant-index decoding inverts encoding for cipher suites, through
the `u32` truncation of the wire read. -/
theorem cipherSuite_ofIndex_mod_index (cs : CipherSuite) :
    CipherSuite.ofIndex (cs.index % 256 ^ 4) = some cs := by
  cases cs <;> rfl

/-- `HandshakeMessage::deserialize` inverts `serialize`, tolerating
trailing bytes. -/
theorem deserializeHM_ser (m : HandshakeMessage) (ys : List Byte)
    (h : m.payload.length < 2 ^ 64) :
    deserializeHM (serializeHM m ++ ys) = some m := by
  simp only [serializeHM, serU32, List.append_assoc, deserializeHM, readNat_leBytes,
    msgType_ofIndex_mod_index, readVecU8_ser _ _ h]

/-- Reading back a serialized cipher suite. -/
theorem parseCipherSuite_ser (cs : CipherSuite) (ys : List Byte) :
    parseCipherSuite (serU32 cs.index ++ ys) = some (cs, ys) := by
  simp only [serU32, parseCipherSuite, readNat_leBytes, cipherSuite_ofIndex_mod_index]

/-- Reading back a serialized version list. -/
theorem parseVersions_ser (vs : List Nat) (ys : List Byte) (h : ∀ v ∈ vs, v < 2 ^ 16) :
    parseVersions vs.length ((vs.map serU16).flatten ++ ys) = some (vs, ys) := by
  induction vs with
  | nil => rfl
  | cons v vs ih =>
    have hv : v % 256 ^ 2 = v := by
      rw [pow256_2]
      exact Nat.mod_eq_of_lt (h v (by simp))
    simp only [List.map_cons, List.flatten_cons, List.length_cons, List.append_assoc,
      parseVersions, serU16, readNat_leBytes, hv, ih (fun w hw => h w (by simp [hw]))]

/-- Reading back a serialized extension. -/
theorem parseExtension_ser (e : Extension) (ys : List Byte) (h : e.WF) :
    parseExtension (serExtension e ++ ys) = some (e, ys) := by
  cases e with
  | keyShare ek =>
    simp only [serExtension, serU32, List.append_assoc, parseExtension, readNat_leBytes,
      readVecU8_ser _ _ h, Nat.zero_mod, Option.map_some']
  | keyShareCiphertext ct =>
    simp only [serExtension, serU32, List.append_assoc, parseExtension, readNat_leBytes,
      readVecU8_ser _ _ h, Option.map_some']
  | serverName hn =>
    simp only [serExtension, serU32, List.append_assoc, parseExtension, readNat_leBytes,
      readVecU8_ser _ _ h, Option.map_some']
  | supportedVersions vs =>
    obtain ⟨h1, h2⟩ := h
    have hl : vs.length % 256 ^ 8 = vs.length := by
      rw [pow256_8]
      exact Nat.mod_eq_of_lt h1
    simp only [serExtension, serU32, serU64, List.append_assoc, parseExtension,
      readNat_leBytes, hl, parseVersions_ser vs ys h2, Option.map_some']

/-- Reading back a serialized homogeneous list, given a pointwise
roundtrip for its elements. -/
theorem parseCount_ser {α : Type} (p : List Byte → Option (α × List Byte))
    (ser : α → List Byte) (xs : List α) (ys : List Byte)
    (hp : ∀ x ∈ xs, ∀ zs, p (ser x ++ zs) = some (x, zs)) :
    parseCount p xs.length ((xs.map ser).flatten ++ ys) = some (xs, ys) := by
  induction xs with
  | nil => rfl
  | cons x xs ih =>
    simp only [List.map_cons, List.flatten_cons, List.length_cons, List.append_assoc,
      parseCount, hp x (by simp), ih (fun w hw zs => hp w (by simp [hw]) zs)]

/-- Reading back a serialized `ServerHello` payload. -/
theorem parseServerHello_ser (sh : ServerHello) (ys : List Byte) (h : sh.WF) :
    parseServerHello (serServerHello sh ++ ys) = some sh := by
  obtain ⟨h1, h2, h3, h4⟩ := h
  have hv : sh.version % 256 ^ 2 = sh.version := by
    rw [pow256_2]
    exact Nat.mod_eq_of_lt h1
  have hl : sh.extensions.length % 256 ^ 8 = sh.extensions.length := by
    rw [pow256_8]
    exact Nat.mod_eq_of_lt h3
  simp only [serServerHello, serU16, serU64, List.append_assoc, parseServerHello,
    readNat_leBytes, hv, readBytes_exact _ _ _ h2, parseCipherSuite_ser, hl,
    parseCount_ser parseExtension serExtension sh.extensions _
      (fun e he zs => parseExtension_ser e zs (h4 e he))]

/-- A simple concrete hash function used to instantiate the schemes in
witnesses: a multiplicative fold of the input, spread over 32 bytes. -/
def Htest : HashFn where
  h x := leBytes 32 (x.foldl (fun a b => (a * 257 + b.val + 1) % 2 ^ 64) (x.length + 1))
  len_h _ := leBytes_length 32 _

/-- A concrete AEAD instance for witnesses: the ciphertext is the nonce
followed by the plaintext. -/
def Atest : AEADScheme where
  enc _ n pt := n ++ pt
  dec _ n ct := if ct.take n.length = n then some (ct.drop n.length) else none
  dec_enc := by
    intro k n pt
    simp
  enc_nonce_inj := by
    intro k n1 n2 pt h hl
    exact (List.append_inj h hl).1

/-- A concrete KEM instance for witnesses: keys are the four seed bytes,
the ciphertext is the encapsulation randomness followed by the public
key, and the shared secret is the reverse concatenation. -/
def Ktest : KEMScheme where
  keygen s := (leBytes 4 s, leBytes 4 s)
  ekValid _ := true
  ctValid _ := true
  encaps r ek := some (leBytes 4 r ++ ek, ek ++ leBytes 4 r)
  decaps dk ct := if ct.drop 4 = dk then some (dk ++ ct.take 4) else none
  ekValid_keygen _ := rfl
  ctValid_encaps _ _ _ _ _ := rfl
  decaps_encaps := by
    intro s r ct ss h
    simp only [Option.some_inj, Prod.mk.injEq] at h
    obtain ⟨hct, hss⟩ := h
    subst hct hss
    dsimp only
    rw [drop_append_len _ _ _ (leBytes_length 4 r),
        take_append_len _ _ _ (leBytes_length 4 r), if_pos rfl]

/-- A concrete signature instance for witnesses: a signature is the
signing key followed by the message. -/
def Stest : SIGScheme where
  keygen s := (leBytes 4 s, leBytes 4 s)
  vkValid _ := true
  sigValid _ := true
  sign sk m := sk ++ m
  verify vk m sig := decide (sig = vk ++ m)
  vkValid_keygen _ := rfl
  sigValid_sign _ _ := rfl
  verify_sign := by intro s m; simp

deriving instance DecidableEq for Except

set_option maxRecDepth 1000000

/-- XOR by a fixed byte is injective. -/
theorem bxor_left_cancel {a b c : Byte} (h : bxor a b = bxor a c) : b = c := by
  have hv : a.val ^^^ b.val = a.val ^^^ c.val := congrArg Fin.val h
  have : b.val = c.val := by
    rw [← Nat.xor_cancel_left a.val b.val, hv, Nat.xor_cancel_left]
  exact Fin.val_injective this

/-- Pointwise XOR against a fixed list is injective on equal-length
lists. -/
theorem zipWith_bxor_cancel (xs ys zs : List Byte) (hy : ys.length = xs.length)
    (hz : zs.length = xs.length)
    (h : List.zipWith bxor xs ys = List.zipWith bxor xs zs) : ys = zs := by
  induction xs generalizing ys zs with
  | nil =>
    cases ys with
    | nil =>
      cases zs with
      | nil => rfl
      | cons z zs => simp at hz
    | cons y ys => simp at hy
  | cons x xs ih =>
    cases ys with
    | nil => simp at hy
    | cons y ys =>
      cases zs with
      | nil => simp at hz
      | cons z zs =>
        simp only [List.zipWith_cons_cons, List.cons.injEq] at h
        simp only [List.length_cons, Nat.add_right_cancel_iff] at hy hz
        exact congrArg₂ _ (bxor_left_cancel h.1) (ih ys zs hy hz h.2)

/-- Big-endian `u64` encodings are injective below `2^64`. -/
theorem beBytes_inj (i j : Nat) (hi : i < 2 ^ 64) (hj : j < 2 ^ 64)
    (h : beBytes 8 i = beBytes 8 j) : i = j := by
  have hle : leBytes 8 i = leBytes 8 j := List.reverse_injective h
  have := congrArg leNum hle
  rw [leNum_leBytes, leNum_leBytes, pow256_8, Nat.mod_eq_of_lt hi,
    Nat.mod_eq_of_lt hj] at this
  exact this

/-- The computed nonce is always 12 bytes for a 12-byte IV. -/
theorem compute_nonce_length (tc : TrafficCipher) (hiv : tc.iv.length = 12) :
    tc.compute_nonce.length = 12 := by
  simp [TrafficCipher.compute_nonce, beBytes, leBytes_length, hiv]

/-- The nonce only depends on the sequence number modulo `2^64` (the
`u64` width of the counter). -/
theorem compute_nonce_mod (tc : TrafficCipher) (s : Nat) :
    ({ tc with sequence_number := s } : TrafficCipher).compute_nonce =
    ({ tc with sequence_number := s % 2 ^ 64 } : TrafficCipher).compute_nonce := by
  simp [TrafficCipher.compute_nonce, Nat.mod_mod_of_dvd _ dvd_rfl]

/-- Distinct `u64` counters give distinct nonces under the same IV. -/
theorem compute_nonce_inj (tc : TrafficCipher) (hiv : tc.iv.length = 12)
    (i j : Nat) (hi : i < 2 ^ 64) (hj : j < 2 ^ 64) (hij : i ≠ j) :
    ({ tc with sequence_number := i } : TrafficCipher).compute_nonce ≠
    ({ tc with sequence_number := j } : TrafficCipher).compute_nonce := by
  intro h
  simp only [TrafficCipher.compute_nonce] at h
  have h2 := List.append_cancel_left h
  have hbe : beBytes 8 (i % 2 ^ 64) = beBytes 8 (j % 2 ^ 64) := by
    refine zipWith_bxor_cancel (tc.iv.drop 4) _ _ ?_ ?_ h2 <;>
      simp [beBytes, leBytes_length, hiv]
  rw [Nat.mod_eq_of_lt hi, Nat.mod_eq_of_lt hj] at hbe
  exact hij (beBytes_inj i j hi hj hbe)

/-- C3 counterexample state: a fresh cipher with counter 0. -/
def tcT : TrafficCipher := ⟨leBytes 32 7, leBytes 12 5, 0⟩

/-- C3: the claim that `decrypt` increments the sequence counter on
every call, failure paths included, is false: on an authentication
failure (12-byte nonce, bad ciphertext) the counter is left unchanged,
because the error path returns before the increment. -/
theorem C3_counterexample :
    (tcT.decrypt Atest [byte 1] (leBytes 12 5)).1 = .error .decryptionError ∧
    ¬ ((tcT.decrypt Atest [byte 1] (leBytes 12 5)).2.sequence_number =
        tcT.sequence_number + 1) := by
  decide

/-- C3 (amended): `decrypt` increments the counter by exactly 1 on the
success path and leaves the state untouched on both failure paths; an
authentication failure yields `DecryptionError` and no plaintext. -/
theorem C3_decrypt_counter (A : AEADScheme) (tc : TrafficCipher) (ct n : List Byte) :
    ((tc.decrypt A ct n).1.isOk = true →
      (tc.decrypt A ct n).2.sequence_number = tc.sequence_number + 1) ∧
    ((tc.decrypt A ct n).1.isOk = false → (tc.decrypt A ct n).2 = tc) ∧
    (n.length = 12 → A.dec tc.key n ct = none →
      tc.decrypt A ct n = (.error .decryptionError, tc)) := by
  unfold TrafficCipher.decrypt
  by_cases h12 : n.length ≠ 12
  · rw [if_pos h12]
    exact ⟨fun h => by simp [Except.isOk, Except.toBool] at h,
      fun _ => rfl, fun h => absurd h h12⟩
  · rw [if_neg h12]
    cases hdec : A.dec tc.key n ct with
    | none =>
      exact ⟨fun h => by simp [Except.isOk, Except.toBool] at h,
        fun _ => rfl, fun _ _ => rfl⟩
    | some q =>
      refine ⟨fun _ => rfl,
        fun h => by simp [Except.isOk, Except.toBool] at h,
        fun _ hd => by simp at hd⟩

/-- C3 witness: the amended statement at concrete inputs, success and
failure cases. -/
theorem C3_decrypt_counter_witness :
    ((tcT.decrypt Atest (leBytes 12 5 ++ [byte 9]) (leBytes 12 5)).2.sequence_number =
      tcT.sequence_number + 1) ∧
    tcT.decrypt Atest [byte 1] (leBytes 12 5) = (.error .decryptionError, tcT) :=
  ⟨(C3_decrypt_counter Atest tcT (leBytes 12 5 ++ [byte 9]) (leBytes 12 5)).1 (by decide),
   (C3_decrypt_counter Atest tcT [byte 1] (leBytes 12 5)).2.2 (by decide) (by decide)⟩

/-- C7: the master secret is the hash of the shared secret alone; every
derived key is `Hash(master_secret || label)` with its fixed label (the
IVs truncated to 12 bytes); the six labels are pairwise distinct; and
equal shared secrets give identical schedules. -/
theorem C7_key_schedule (H : HashFn) (ss : List Byte) :
    (KeySchedule.new H ss).master_secret = H.h ss ∧
    (KeySchedule.new H ss).derive_client_write_key H =
      H.h (H.h ss ++ ascii "client write key") ∧
    (KeySchedule.new H ss).derive_server_write_key H =
      H.h (H.h ss ++ ascii "server write key") ∧
    (KeySchedule.new H ss).derive_client_write_iv H =
      (H.h (H.h ss ++ ascii "client write iv")).take 12 ∧
    (KeySchedule.new H ss).derive_server_write_iv H =
      (H.h (H.h ss ++ ascii "server write iv")).take 12 ∧
    (∀ label, (KeySchedule.new H ss).derive_finished_key H label =
      H.h (H.h ss ++ label)) ∧
    ([ascii "client write key", ascii "server write key", ascii "client write iv",
      ascii "server write iv", ascii "client finished",
      ascii "server finished"].Pairwise (· ≠ ·)) ∧
    (∀ ss2, ss = ss2 → KeySchedule.new H ss = KeySchedule.new H ss2) := by
  refine ⟨rfl, rfl, rfl, rfl, rfl, fun _ => rfl, by decide, fun ss2 h => by rw [h]⟩

/-- C7 witness: instantiation at the test hash and a concrete secret. -/
theorem C7_key_schedule_witness :
    KeySchedule.new Htest [byte 3] = KeySchedule.new Htest [byte 3] :=
  (C7_key_schedule Htest [byte 3]).2.2.2.2.2.2.2 [byte 3] rfl

/-- C10: `decrypt` never consults the receiving cipher's own sequence
counter: two states equal up to the counter give identical results on
the same (ciphertext, nonce) input, and a pair that decrypts
successfully decrypts successfully again on the successor state. -/
theorem C10_decrypt_ignores_counter (A : AEADScheme) (tc1 tc2 : TrafficCipher)
    (ct n : List Byte) (hk : tc1.key = tc2.key) (hiv : tc1.iv = tc2.iv) :
    (tc1.decrypt A ct n).1 = (tc2.decrypt A ct n).1 ∧
    (∀ pt, (tc1.decrypt A ct n).1 = .ok pt →
      (((tc1.decrypt A ct n).2).decrypt A ct n).1 = .ok pt) := by
  constructor
  · unfold TrafficCipher.decrypt
    rw [hk]
    split
    · rfl
    · cases A.dec tc2.key n ct <;> rfl
  · intro pt hpt
    unfold TrafficCipher.decrypt at *
    split at hpt
    · simp at hpt
    · rename_i h12
      rw [if_neg h12]
      cases hdec : A.dec tc1.key n ct with
      | none => rw [hdec] at hpt; simp at hpt
      | some q =>
        rw [hdec] at hpt
        simp only at hpt
        cases hpt
        rw [if_neg h12, hdec]

/-- C10 witness: concrete states differing only in the counter, and a
successful replay. -/
theorem C10_decrypt_ignores_counter_witness :
    ((tcT.decrypt Atest (leBytes 12 5 ++ [byte 9]) (leBytes 12 5)).1 =
      (({ tcT with sequence_number := 41 } : TrafficCipher).decrypt Atest
        (leBytes 12 5 ++ [byte 9]) (leBytes 12 5)).1) ∧
    (((tcT.decrypt Atest (leBytes 12 5 ++ [byte 9]) (leBytes 12 5)).2).decrypt Atest
        (leBytes 12 5 ++ [byte 9]) (leBytes 12 5)).1 = .ok [byte 9] :=
  ⟨(C10_decrypt_ignores_counter Atest tcT { tcT with sequence_number := 41 }
      (leBytes 12 5 ++ [byte 9]) (leBytes 12 5) rfl rfl).1,
   (C10_decrypt_ignores_counter Atest tcT { tcT with sequence_number := 41 }
      (leBytes 12 5 ++ [byte 9]) (leBytes 12 5) rfl rfl).2 [byte 9] (by decide)⟩

/-- Element access in a `zipWith` of byte lists. -/
theorem zipWith_getD (f : Byte → Byte → Byte) (xs ys : List Byte) (i : Nat)
    (hx : i < xs.length) (hy : i < ys.length) :
    (List.zipWith f xs ys).getD i 0 = f (xs.getD i 0) (ys.getD i 0) := by
  induction xs generalizing ys i with
  | nil => simp at hx
  | cons x xs ih =>
    cases ys with
    | nil => simp at hy
    | cons y ys =>
      cases i with
      | zero => rfl
      | succ i =>
        simp only [List.length_cons, Nat.add_lt_add_iff_right] at hx hy
        simp only [List.zipWith_cons_cons, List.getD_cons_succ]
        exact ih ys i hx hy

/-- C8: the nonce is the 12-byte IV whose last 8 bytes are XORed with
the big-endian sequence counter; `encrypt` uses that nonce and steps the
counter from 0 upward, so counters below `2^64` give pairwise distinct
nonces, and the same plaintext encrypted twice in a row yields two
different ciphertexts. -/
theorem C8_nonce_uniqueness (A : AEADScheme) (tc : TrafficCipher) (pt : List Byte)
    (hiv : tc.iv.length = 12) :
    tc.compute_nonce.length = 12 ∧
    (∀ i, i < 4 → tc.compute_nonce.getD i 0 = tc.iv.getD i 0) ∧
    (∀ i, i < 8 → tc.compute_nonce.getD (4 + i) 0 =
      bxor (tc.iv.getD (4 + i) 0)
        ((beBytes 8 (tc.sequence_number % 2 ^ 64)).getD i 0)) ∧
    (tc.encrypt A pt).1.2 = tc.compute_nonce ∧
    (tc.encrypt A pt).2.sequence_number = tc.sequence_number + 1 ∧
    (TrafficCipher.new tc.key tc.iv).sequence_number = 0 ∧
    (∀ i j, i < 2 ^ 64 → j < 2 ^ 64 → i ≠ j →
      ({ tc with sequence_number := i } : TrafficCipher).compute_nonce ≠
      ({ tc with sequence_number := j } : TrafficCipher).compute_nonce) ∧
    ((tc.encrypt A pt).2.encrypt A pt).1.1 ≠ (tc.encrypt A pt).1.1 := by
  have hbe : ∀ s : Nat, (beBytes 8 s).length = 8 := by
    intro s
    simp [beBytes, leBytes_length]
  have htk : (tc.iv.take 4).length = 4 := List.length_take_of_le (by omega)
  refine ⟨compute_nonce_length tc hiv, ?_, ?_, rfl, rfl, rfl, compute_nonce_inj tc hiv, ?_⟩
  · intro i hi
    unfold TrafficCipher.compute_nonce
    rw [List.getD_append _ _ _ _ (by omega)]
    simp [List.getD, List.getElem?_take, hi]
  · intro i hi
    unfold TrafficCipher.compute_nonce
    have h4 : 4 + i = (tc.iv.take 4).length + i := by rw [htk]
    rw [h4, List.getD_append_right _ _ _ _ (Nat.le_add_right _ _), Nat.add_sub_cancel_left]
    rw [zipWith_getD bxor _ _ i (by simp [hiv]; omega) (by rw [hbe]; omega)]
    congr 1
    simp [List.getD, List.getElem?_drop, hiv]
  · intro h
    have hM : (2 : Nat) ^ 64 = 18446744073709551616 := by norm_num
    have hl2 : (tc.encrypt A pt).2.compute_nonce.length = 12 := compute_nonce_length _ hiv
    have hn : ((tc.encrypt A pt).2.compute_nonce) = tc.compute_nonce := by
      refine A.enc_nonce_inj _ _ _ _ h ?_
      rw [hl2, compute_nonce_length _ hiv]
    have h1 : ({ tc with sequence_number := tc.sequence_number + 1 } : TrafficCipher).compute_nonce =
        ({ tc with sequence_number := tc.sequence_number } : TrafficCipher).compute_nonce := hn
    rw [compute_nonce_mod tc (tc.sequence_number + 1),
      compute_nonce_mod tc tc.sequence_number] at h1
    exact compute_nonce_inj tc hiv _ _ (Nat.mod_lt _ (by positivity))
      (Nat.mod_lt _ (by positivity)) (by rw [hM]; omega) h1

/-- Taking at most the left part of an append stays in the left part. -/
theorem take_append_small {α : Type} (xs ys : List α) (k : Nat) (h : k ≤ xs.length) :
    (xs ++ ys).take k = xs.take k := by
  rw [List.take_append_eq_append_take, Nat.sub_eq_zero_of_le h, List.take_zero,
    List.append_nil]

/-- Taking past the left part of an append keeps it whole. -/
theorem take_append_big {α : Type} (xs ys : List α) (k : Nat) (h : xs.length ≤ k) :
    (xs ++ ys).take k = xs ++ ys.take (k - xs.length) := by
  rw [List.take_append_eq_append_take, List.take_of_length_le h]

/-- Reading more bytes than available fails. -/
theorem readBytes_short (k : Nat) (s : List Byte) (h : s.length < k) :
    readBytes k s = none := by
  unfold readBytes
  rw [if_neg (by omega)]

/-- Reading a number from a too-short buffer fails. -/
theorem readNat_short (k : Nat) (s : List Byte) (h : s.length < k) :
    readNat k s = none := by
  simp [readNat, readBytes_short k s h]

/-- Reading a `Vec<u8>` from a buffer shorter than its length prefix
fails. -/
theorem readVecU8_short (s : List Byte) (h : s.length < 8) : readVecU8 s = none := by
  simp [readVecU8, readNat_short 8 s h]

/-- Variant indices 6 and above decode to no message type. -/
theorem MessageType.ofIndex_ge (v : Nat) (h : 6 ≤ v) : MessageType.ofIndex v = none := by
  obtain ⟨w, rfl⟩ : ∃ w, v = w + 6 := ⟨v - 6, by omega⟩
  rfl

/-- C9: `serialize` and `deserialize` of handshake messages are mutually
inverse on messages whose payload length fits the `u64` length field,
and `deserialize` of an empty buffer, of any strict truncation of a
serialized message, or of a buffer with an out-of-range type tag returns
`none` rather than a value. -/
theorem C9_serialize_roundtrip :
    (∀ m : HandshakeMessage, m.payload.length < 2 ^ 64 →
      deserializeHM (serializeHM m) = some m) ∧
    deserializeHM [] = none ∧
    (∀ m : HandshakeMessage, ∀ k, m.payload.length < 2 ^ 64 →
      k < (serializeHM m).length → deserializeHM ((serializeHM m).take k) = none) ∧
    (∀ v rest, 6 ≤ v → v < 2 ^ 32 → deserializeHM (serU32 v ++ rest) = none) := by
  refine ⟨?_, by decide, ?_, ?_⟩
  · intro m hp
    have := deserializeHM_ser m [] hp
    rwa [List.append_nil] at this
  · rintro ⟨t, p⟩ k hp hk
    have hA : (leBytes 4 (MessageType.index t)).length = 4 := leBytes_length _ _
    have hB : (leBytes 8 p.length).length = 8 := leBytes_length _ _
    have hT : (serializeHM ⟨t, p⟩).length = 12 + p.length := by
      simp [serializeHM, serU32, serVecU8, serU64, leBytes_length]
      omega
    rw [hT] at hk
    by_cases h1 : k < 4
    · have he : (serializeHM ⟨t, p⟩).take k = (leBytes 4 t.index).take k := by
        simp only [serializeHM, serU32, serVecU8, serU64, List.append_assoc]
        rw [take_append_small _ _ _ (by rw [hA]; omega)]
      have hlen : ((leBytes 4 t.index).take k).length = k :=
        List.length_take_of_le (by omega)
      rw [he]
      unfold deserializeHM
      rw [readNat_short 4 _ (by omega)]
    · by_cases h2 : k < 12
      · have he : (serializeHM ⟨t, p⟩).take k =
            leBytes 4 t.index ++ (leBytes 8 p.length).take (k - 4) := by
          simp only [serializeHM, serU32, serVecU8, serU64, List.append_assoc]
          rw [take_append_big _ _ _ (by rw [hA]; omega), hA,
            take_append_small _ _ _ (by rw [hB]; omega)]
        have hlen : ((leBytes 8 p.length).take (k - 4)).length = k - 4 :=
          List.length_take_of_le (by omega)
        rw [he]
        simp only [deserializeHM, readNat_leBytes, msgType_ofIndex_mod_index]
        rw [readVecU8_short _ (by omega)]
      · have he : (serializeHM ⟨t, p⟩).take k =
            leBytes 4 t.index ++ (leBytes 8 p.length ++ p.take (k - 12)) := by
          simp only [serializeHM, serU32, serVecU8, serU64, List.append_assoc]
          rw [take_append_big _ _ _ (by rw [hA]; omega), hA,
            take_append_big _ _ _ (by rw [hB]; omega), hB]
          have h48 : k - 4 - 8 = k - 12 := by omega
          rw [h48]
        have hlen : (p.take (k - 12)).length = k - 12 :=
          List.length_take_of_le (by omega)
        rw [he]
        simp only [deserializeHM, readNat_leBytes, msgType_ofIndex_mod_index,
          readVecU8, pow256_8, Nat.mod_eq_of_lt hp]
        rw [readBytes_short p.length _ (by omega)]
  · intro v rest h6 h32
    simp only [deserializeHM, serU32, readNat_leBytes, pow256_4,
      Nat.mod_eq_of_lt h32, MessageType.ofIndex_ge v h6]

/-- C9 witness: roundtrip and malformed-input rejection at concrete
inputs. -/
theorem C9_serialize_roundtrip_witness :
    deserializeHM (serializeHM ⟨.clientHello, [byte 7]⟩) = some ⟨.clientHello, [byte 7]⟩ ∧
    deserializeHM ((serializeHM ⟨.clientHello, [byte 7]⟩).take 5) = none ∧
    deserializeHM (serU32 9 ++ [byte 0]) = none :=
  ⟨C9_serialize_roundtrip.1 ⟨.clientHello, [byte 7]⟩ (by decide),
   C9_serialize_roundtrip.2.2.1 ⟨.clientHello, [byte 7]⟩ 5 (by decide) (by decide),
   C9_serialize_roundtrip.2.2.2 9 [byte 0] (by decide) (by decide)⟩

/-- A concrete server with keys from the test signature scheme. -/
def testServer : Server :=
  ⟨(Stest.keygen 5).1, (Stest.keygen 5).2, ServerConfig.default⟩

/-- A concrete honest client start: KEM seed 3, client random
`leBytes 32 1`, default configuration. -/
def testStart : ClientHandshakeState × List Byte :=
  Client.start_handshake Ktest ClientConfig.default 3 (leBytes 32 1)

/-- The honest server run on the client hello: encapsulation seed 9,
server random `leBytes 32 2`. -/
def testServerRes : Except ServerError ServerSession :=
  Server.handshake Htest Ktest Stest testServer 9 (leBytes 32 2) testStart.2

/-- The four outbound server messages of the honest run. -/
def testServerMsgs : List (List Byte) :=
  match testServerRes with
  | .ok s => s.handshake_messages
  | .error _ => []

/-- The honest client completion on the server's four messages. -/
def testClientRes : Except ClientError ClientSession :=
  Client.complete_handshake Htest Ktest Stest testStart.1 testServerMsgs

/-- The shared secret of the honest run (test KEM: encapsulation of seed
9 against the encoded key of seed 3). -/
def testSS : List Byte := leBytes 4 3 ++ leBytes 4 9

/-- The server finished key of the honest run. -/
def testSfk : List Byte :=
  (KeySchedule.new Htest testSS).derive_finished_key Htest (ascii "server finished")

/-- The four-message transcript (ClientHello through CertificateVerify),
which the server MACs and which the specification says the client should
MAC for its expected verify-data. -/
def testT4 : List (List Byte) := testStart.2 :: testServerMsgs.take 3

/-- The five-message transcript including the server Finished record,
which the client code actually MACs. -/
def testT5 : List (List Byte) := testStart.2 :: testServerMsgs

/-- C1: the honest full exchange does NOT complete. The server side
succeeds, but the client rejects the server Finished message with
`FinishedVerificationFailed`, because the client appends the Finished
record to its transcript before recomputing the expected verify-data
while the server computed it over the four-message transcript. The
repository's own `test_full_handshake` expects this exchange to succeed,
so this is a bug in the code. -/
theorem C1_full_handshake_fails :
    testServerRes.isOk = true ∧
    testClientRes = .error .finishedVerificationFailed := by
  decide

/-- C2: the server's Finished verify-data is the MAC over the
four-message transcript, the MAC over the five-message transcript
(Finished included) differs from it, and the client — which MACs the
five-message transcript — therefore rejects the honest server Finished.
The claim's description (client excludes the Finished record) matches
the server and the spec but not the client code. -/
theorem C2_finished_transcript_mismatch :
    ((deserializeHM (testServerMsgs.getD 3 [])).bind (fun m => parseFinished m.payload)) =
      some ⟨compute_verify_data Htest testSfk testT4⟩ ∧
    compute_verify_data Htest testSfk testT4 ≠ compute_verify_data Htest testSfk testT5 ∧
    testClientRes = .error .finishedVerificationFailed := by
  decide

/-- The concrete ClientHello built by the test client start. -/
def testCH : ClientHello :=
  ⟨PQ_TLS_VERSION, leBytes 32 1, [.mlKem768MlDsa65Aes256Gcm],
   [.keyShare (leBytes 4 3), .supportedVersions [PQ_TLS_VERSION]]⟩

/-- The server session of the honest test run. -/
def testServerSess : ServerSession :=
  match testServerRes with
  | .ok s => s
  | .error _ => ⟨⟨[]⟩, TrafficCipher.new [] [], TrafficCipher.new [] [], [], [], []⟩

/-- C5: on success, the negotiated suite placed in the ServerHello is
the first suite of the server's preference-ordered list that the client
offered; and when the two lists are disjoint, `handshake` fails with
`HandshakeFailed` ("No common cipher suite") and produces neither a
session nor messages. -/
theorem C5_cipher_suite_selection (H : HashFn) (K : KEMScheme) (S : SIGScheme)
    (srv : Server) (seed : Nat) (r chdata : List Byte)
    (chm : HandshakeMessage) (ch : ClientHello) (ekb ct ss : List Byte)
    (hd : deserializeHM chdata = some chm)
    (hty : chm.msg_type = .clientHello)
    (hp : parseClientHello chm.payload = some ch)
    (hek : findKeyShare ch.extensions = some ekb)
    (henc : K.encaps seed ekb = some (ct, ss))
    (hr : r.length = 32)
    (hct : ct.length < 2 ^ 32) :
    (∀ sess, Server.handshake H K S srv seed r chdata = .ok sess →
      ((deserializeHM (sess.handshake_messages.getD 0 [])).bind
        (fun m => (parseServerHello m.payload).map ServerHello.cipher_suite)) =
        srv.config.cipher_suites.find? (fun cs => ch.cipher_suites.contains cs)) ∧
    ((∀ cs ∈ srv.config.cipher_suites, cs ∉ ch.cipher_suites) →
      Server.handshake H K S srv seed r chdata =
        .error (.handshakeFailed "No common cipher suite")) := by
  have h64 : (2 : Nat) ^ 64 = 18446744073709551616 := by norm_num
  have h32 : (2 : Nat) ^ 32 = 4294967296 := by norm_num
  have hpred : (fun cs => ch.cipher_suites.contains cs) =
      (fun cs => decide (cs ∈ ch.cipher_suites)) := by
    funext cs
    simp
  constructor
  · intro sess hok
    cases hfind : srv.config.cipher_suites.find?
        (fun cs => decide (cs ∈ ch.cipher_suites)) with
    | none =>
      exfalso
      simp [Server.handshake, hd, hty, hp, hfind] at hok
    | some suite =>
      cases hekv : K.ekValid ekb with
      | false =>
        exfalso
        simp [Server.handshake, hd, hty, hp, hfind, hek, hekv] at hok
      | true =>
        simp [Server.handshake, hd, hty, hp, hfind, hek, hekv, henc] at hok
        subst hok
        have hsh : ServerHello.WF ⟨PQ_TLS_VERSION, r, suite, [.keyShareCiphertext ct]⟩ := by
          refine ⟨by norm_num [PQ_TLS_VERSION], hr, by norm_num, ?_⟩
          intro e he
          simp only [List.mem_singleton] at he
          subst he
          show ct.length < 2 ^ 64
          omega
        have hpl : (serServerHello ⟨PQ_TLS_VERSION, r, suite, [.keyShareCiphertext ct]⟩).length
            < 2 ^ 64 := by
          simp [serServerHello, serU16, serU32, serU64, serExtension, serVecU8,
            leBytes_length, hr]
          omega
        have hdm := deserializeHM_ser
          ⟨.serverHello, serServerHello ⟨PQ_TLS_VERSION, r, suite, [.keyShareCiphertext ct]⟩⟩
          [] hpl
        rw [List.append_nil] at hdm
        have hps := parseServerHello_ser ⟨PQ_TLS_VERSION, r, suite, [.keyShareCiphertext ct]⟩
          [] hsh
        rw [List.append_nil] at hps
        simp [List.getD, hdm, hps, hfind]
  · intro hdisj
    have hfind : srv.config.cipher_suites.find?
        (fun cs => decide (cs ∈ ch.cipher_suites)) = none := by
      rw [List.find?_eq_none]
      intro cs hcs
      simpa using hdisj cs hcs
    simp [Server.handshake, hd, hty, hp, hfind]

/-- C5 witness: the test run, whose ServerHello carries the single
common suite. -/
theorem C5_cipher_suite_selection_witness :
    ((deserializeHM (testServerSess.handshake_messages.getD 0 [])).bind
      (fun m => (parseServerHello m.payload).map ServerHello.cipher_suite)) =
      testServer.config.cipher_suites.find?
        (fun cs => testCH.cipher_suites.contains cs) :=
  (C5_cipher_suite_selection Htest Ktest Stest testServer 9 (leBytes 32 2) testStart.2
    ⟨.clientHello, serClientHello testCH⟩ testCH (leBytes 4 3)
    (leBytes 4 9 ++ leBytes 4 3) (leBytes 4 3 ++ leBytes 4 9)
    (by decide) (by decide) (by decide) (by decide) (by decide) (by decide)
    (by decide)).1 testServerSess (by decide)

/-- C4: the client verifies the CertificateVerify signature against the
hash of the three-message transcript (ClientHello, ServerHello,
Certificate — the CertificateVerify record itself excluded); a failing
verification aborts with `SignatureVerificationFailed` and no session.
Symmetrically, a successful server places in its CertificateVerify
message a signature over exactly the three-message transcript hash,
excluding the CertificateVerify bytes themselves. -/
theorem C4_certificate_verify_transcript (H : HashFn) (K : KEMScheme) (S : SIGScheme) :
    (∀ (st : ClientHandshakeState) (m0 m1 m2 m3 : List Byte) (rest : List (List Byte))
      (shm : HandshakeMessage) (sh : ServerHello) (ctb ss : List Byte)
      (cm : HandshakeMessage) (cert : Certificate)
      (cvm : HandshakeMessage) (cv : CertificateVerify),
      deserializeHM m0 = some shm → shm.msg_type = .serverHello →
      parseServerHello shm.payload = some sh →
      findKeyShareCiphertext sh.extensions = some ctb →
      K.ctValid ctb = true →
      K.decaps st.decapsulation_key ctb = some ss →
      deserializeHM m1 = some cm → cm.msg_type = .certificate →
      parseCertificate cm.payload = some cert →
      S.vkValid cert.verifying_key = true →
      deserializeHM m2 = some cvm → cvm.msg_type = .certificateVerify →
      parseCertificateVerify cvm.payload = some cv →
      S.sigValid cv.signature = true →
      S.verify cert.verifying_key
        (transcriptHash H (st.handshake_messages ++ [m0, m1])) cv.signature = false →
      Client.complete_handshake H K S st (m0 :: m1 :: m2 :: m3 :: rest) =
        .error .signatureVerificationFailed) ∧
    (∀ (srv : Server) (seed : Nat) (r chdata : List Byte)
      (chm : HandshakeMessage) (ch : ClientHello),
      deserializeHM chdata = some chm → chm.msg_type = .clientHello →
      parseClientHello chm.payload = some ch →
      (∀ m, m.length = 32 → (S.sign srv.signing_key m).length < 2 ^ 32) →
      ∀ sess, Server.handshake H K S srv seed r chdata = .ok sess →
        deserializeHM (sess.handshake_messages.getD 2 []) =
          some ⟨.certificateVerify, serCertificateVerify
            ⟨S.sign srv.signing_key (transcriptHash H
              [chdata, sess.handshake_messages.getD 0 [],
               sess.handshake_messages.getD 1 []])⟩⟩) := by
  have h64 : (2 : Nat) ^ 64 = 18446744073709551616 := by norm_num
  have h32 : (2 : Nat) ^ 32 = 4294967296 := by norm_num
  constructor
  · intro st m0 m1 m2 m3 rest shm sh ctb ss cm cert cvm cv
      h0 h0t h0p hks hctv hdec h1 h1t h1p hvk h2 h2t h2p hsv hverify
    unfold Client.complete_handshake
    rw [if_neg (by simp only [List.length_cons]; omega)]
    simp [h0, h0t, h0p, hks, hctv, hdec, h1, h1t, h1p, hvk, h2, h2t, h2p, hsv, hverify]
  · intro srv seed r chdata chm ch hd hty hp hsig sess hok
    cases hfind : srv.config.cipher_suites.find?
        (fun cs => decide (cs ∈ ch.cipher_suites)) with
    | none =>
      exfalso
      simp [Server.handshake, hd, hty, hp, hfind] at hok
    | some suite =>
      cases hek : findKeyShare ch.extensions with
      | none =>
        exfalso
        simp [Server.handshake, hd, hty, hp, hfind, hek] at hok
      | some ekb =>
        cases hekv : K.ekValid ekb with
        | false =>
          exfalso
          simp [Server.handshake, hd, hty, hp, hfind, hek, hekv] at hok
        | true =>
          cases henc : K.encaps seed ekb with
          | none =>
            exfalso
            simp [Server.handshake, hd, hty, hp, hfind, hek, hekv, henc] at hok
          | some ctss =>
            obtain ⟨ct, ss⟩ := ctss
            simp [Server.handshake, hd, hty, hp, hfind, hek, hekv, henc] at hok
            subst hok
            have hpl : (serCertificateVerify ⟨S.sign srv.signing_key (transcriptHash H
                [chdata,
                 serializeHM ⟨.serverHello,
                   serServerHello ⟨PQ_TLS_VERSION, r, suite, [.keyShareCiphertext ct]⟩⟩,
                 serializeHM ⟨.certificate, serCertificate ⟨srv.verifying_key⟩⟩])⟩).length
                < 2 ^ 64 := by
              have := hsig (transcriptHash H
                [chdata,
                 serializeHM ⟨.serverHello,
                   serServerHello ⟨PQ_TLS_VERSION, r, suite, [.keyShareCiphertext ct]⟩⟩,
                 serializeHM ⟨.certificate, serCertificate ⟨srv.verifying_key⟩⟩])
                (H.len_h _)
              simp [serCertificateVerify, serVecU8, serU64, leBytes_length]
              omega
            have hdm := deserializeHM_ser ⟨.certificateVerify,
              serCertificateVerify ⟨S.sign srv.signing_key (transcriptHash H
                [chdata,
                 serializeHM ⟨.serverHello,
                   serServerHello ⟨PQ_TLS_VERSION, r, suite, [.keyShareCiphertext ct]⟩⟩,
                 serializeHM ⟨.certificate, serCertificate ⟨srv.verifying_key⟩⟩])⟩⟩ [] hpl
            rw [List.append_nil] at hdm
            simp [List.getD, hdm]

/-- The concrete ServerHello of the honest test run. -/
def testSH : ServerHello :=
  ⟨PQ_TLS_VERSION, leBytes 32 2, .mlKem768MlDsa65Aes256Gcm,
   [.keyShareCiphertext (leBytes 4 9 ++ leBytes 4 3)]⟩

/-- The concrete Certificate of the honest test run. -/
def testCert : Certificate := ⟨leBytes 4 5⟩

/-- C4 witness: a tampered CertificateVerify is rejected on the client
side, and the honest server's CertificateVerify signs the three-message
transcript. -/
theorem C4_certificate_verify_transcript_witness :
    Client.complete_handshake Htest Ktest Stest testStart.1
      [serializeHM ⟨.serverHello, serServerHello testSH⟩,
       serializeHM ⟨.certificate, serCertificate testCert⟩,
       serializeHM ⟨.certificateVerify, serCertificateVerify ⟨[byte 0]⟩⟩, []] =
      .error .signatureVerificationFailed ∧
    deserializeHM (testServerSess.handshake_messages.getD 2 []) =
      some ⟨.certificateVerify, serCertificateVerify
        ⟨Stest.sign testServer.signing_key (transcriptHash Htest
          [testStart.2, testServerSess.handshake_messages.getD 0 [],
           testServerSess.handshake_messages.getD 1 []])⟩⟩ :=
  ⟨(C4_certificate_verify_transcript Htest Ktest Stest).1 testStart.1
    (serializeHM ⟨.serverHello, serServerHello testSH⟩)
    (serializeHM ⟨.certificate, serCertificate testCert⟩)
    (serializeHM ⟨.certificateVerify, serCertificateVerify ⟨[byte 0]⟩⟩) [] []
    ⟨.serverHello, serServerHello testSH⟩ testSH
    (leBytes 4 9 ++ leBytes 4 3) testSS
    ⟨.certificate, serCertificate testCert⟩ testCert
    ⟨.certificateVerify, serCertificateVerify ⟨[byte 0]⟩⟩ ⟨[byte 0]⟩
    (by decide) (by decide) (by decide) (by decide) (by decide) (by decide)
    (by decide) (by decide) (by decide) (by decide) (by decide) (by decide)
    (by decide) (by decide) (by decide),
   (C4_certificate_verify_transcript Htest Ktest Stest).2 testServer 9
    (leBytes 32 2) testStart.2 ⟨.clientHello, serClientHello testCH⟩ testCH
    (by decide) (by decide) (by decide)
    (fun m hm => by simp [Stest, hm, testServer, leBytes_length])
    testServerSess (by decide)⟩

/-- C6: `complete_handshake` demands exactly the ordered sequence
ServerHello, Certificate, CertificateVerify, Finished: fewer than four
messages fail with the incomplete-response error before any processing,
and at each of the four steps a message whose type tag differs from the
expected type is rejected with `InvalidMessageType`. -/
theorem C6_strict_message_sequence (H : HashFn) (K : KEMScheme) (S : SIGScheme) :
    (∀ (st : ClientHandshakeState) (msgs : List (List Byte)), msgs.length < 4 →
      Client.complete_handshake H K S st msgs =
        .error (.handshakeFailed "Incomplete server response")) ∧
    (∀ (st : ClientHandshakeState) (m0 m1 m2 m3 : List Byte) (rest : List (List Byte))
      (shm : HandshakeMessage),
      deserializeHM m0 = some shm → shm.msg_type ≠ .serverHello →
      Client.complete_handshake H K S st (m0 :: m1 :: m2 :: m3 :: rest) =
        .error .invalidMessageType) ∧
    (∀ (st : ClientHandshakeState) (m0 m1 m2 m3 : List Byte) (rest : List (List Byte))
      (shm : HandshakeMessage) (sh : ServerHello) (ctb ss : List Byte)
      (cm : HandshakeMessage),
      deserializeHM m0 = some shm → shm.msg_type = .serverHello →
      parseServerHello shm.payload = some sh →
      findKeyShareCiphertext sh.extensions = some ctb →
      K.ctValid ctb = true →
      K.decaps st.decapsulation_key ctb = some ss →
      deserializeHM m1 = some cm → cm.msg_type ≠ .certificate →
      Client.complete_handshake H K S st (m0 :: m1 :: m2 :: m3 :: rest) =
        .error .invalidMessageType) ∧
    (∀ (st : ClientHandshakeState) (m0 m1 m2 m3 : List Byte) (rest : List (List Byte))
      (shm : HandshakeMessage) (sh : ServerHello) (ctb ss : List Byte)
      (cm : HandshakeMessage) (cert : Certificate) (cvm : HandshakeMessage),
      deserializeHM m0 = some shm → shm.msg_type = .serverHello →
      parseServerHello shm.payload = some sh →
      findKeyShareCiphertext sh.extensions = some ctb →
      K.ctValid ctb = true →
      K.decaps st.decapsulation_key ctb = some ss →
      deserializeHM m1 = some cm → cm.msg_type = .certificate →
      parseCertificate cm.payload = some cert →
      S.vkValid cert.verifying_key = true →
      deserializeHM m2 = some cvm → cvm.msg_type ≠ .certificateVerify →
      Client.complete_handshake H K S st (m0 :: m1 :: m2 :: m3 :: rest) =
        .error .invalidMessageType) ∧
    (∀ (st : ClientHandshakeState) (m0 m1 m2 m3 : List Byte) (rest : List (List Byte))
      (shm : HandshakeMessage) (sh : ServerHello) (ctb ss : List Byte)
      (cm : HandshakeMessage) (cert : Certificate)
      (cvm : HandshakeMessage) (cv : CertificateVerify) (fm : HandshakeMessage),
      deserializeHM m0 = some shm → shm.msg_type = .serverHello →
      parseServerHello shm.payload = some sh →
      findKeyShareCiphertext sh.extensions = some ctb →
      K.ctValid ctb = true →
      K.decaps st.decapsulation_key ctb = some ss →
      deserializeHM m1 = some cm → cm.msg_type = .certificate →
      parseCertificate cm.payload = some cert →
      S.vkValid cert.verifying_key = true →
      deserializeHM m2 = some cvm → cvm.msg_type = .certificateVerify →
      parseCertificateVerify cvm.payload = some cv →
      S.sigValid cv.signature = true →
      S.verify cert.verifying_key
        (transcriptHash H (st.handshake_messages ++ [m0, m1])) cv.signature = true →
      deserializeHM m3 = some fm → fm.msg_type ≠ .finished →
      Client.complete_handshake H K S st (m0 :: m1 :: m2 :: m3 :: rest) =
        .error .invalidMessageType) := by
  refine ⟨?_, ?_, ?_, ?_, ?_⟩
  · intro st msgs h
    unfold Client.complete_handshake
    rw [if_pos h]
  · intro st m0 m1 m2 m3 rest shm h0 hne
    unfold Client.complete_handshake
    rw [if_neg (by simp only [List.length_cons]; omega)]
    simp [h0, hne]
  · intro st m0 m1 m2 m3 rest shm sh ctb ss cm h0 h0t h0p hks hctv hdec h1 hne
    unfold Client.complete_handshake
    rw [if_neg (by simp only [List.length_cons]; omega)]
    simp [h0, h0t, h0p, hks, hctv, hdec, h1, hne]
  · intro st m0 m1 m2 m3 rest shm sh ctb ss cm cert cvm
      h0 h0t h0p hks hctv hdec h1 h1t h1p hvk h2 hne
    unfold Client.complete_handshake
    rw [if_neg (by simp only [List.length_cons]; omega)]
    simp [h0, h0t, h0p, hks, hctv, hdec, h1, h1t, h1p, hvk, h2, hne]
  · intro st m0 m1 m2 m3 rest shm sh ctb ss cm cert cvm cv fm
      h0 h0t h0p hks hctv hdec h1 h1t h1p hvk h2 h2t h2p hsv hverify h3 hne
    unfold Client.complete_handshake
    rw [if_neg (by simp only [List.length_cons]; omega)]
    simp [h0, h0t, h0p, hks, hctv, hdec, h1, h1t, h1p, hvk, h2, h2t, h2p, hsv,
      hverify, h3, hne]

/-- C6 witness: an empty message list, a wrong tag at the first step,
and a wrong tag at the Finished step, all at concrete inputs. -/
theorem C6_strict_message_sequence_witness :
    Client.complete_handshake Htest Ktest Stest testStart.1 [] =
      .error (.handshakeFailed "Incomplete server response") ∧
    Client.complete_handshake Htest Ktest Stest testStart.1
      [serializeHM ⟨.certificate, serCertificate testCert⟩,
       serializeHM ⟨.certificate, serCertificate testCert⟩,
       serializeHM ⟨.certificateVerify, serCertificateVerify ⟨[byte 0]⟩⟩, []] =
      .error .invalidMessageType ∧
    Client.complete_handshake Htest Ktest Stest testStart.1
      [serializeHM ⟨.serverHello, serServerHello testSH⟩,
       serializeHM ⟨.certificate, serCertificate testCert⟩,
       serializeHM ⟨.certificateVerify, serCertificateVerify
         ⟨Stest.sign (leBytes 4 5) (transcriptHash Htest
           (testStart.1.handshake_messages ++
            [serializeHM ⟨.serverHello, serServerHello testSH⟩,
             serializeHM ⟨.certificate, serCertificate testCert⟩]))⟩⟩,
       serializeHM ⟨.applicationData, []⟩] =
      .error .invalidMessageType :=
  ⟨(C6_strict_message_sequence Htest Ktest Stest).1 testStart.1 [] (by decide),
   (C6_strict_message_sequence Htest Ktest Stest).2.1 testStart.1
     (serializeHM ⟨.certificate, serCertificate testCert⟩)
     (serializeHM ⟨.certificate, serCertificate testCert⟩)
     (serializeHM ⟨.certificateVerify, serCertificateVerify ⟨[byte 0]⟩⟩) [] []
     ⟨.certificate, serCertificate testCert⟩ (by decide) (by decide),
   (C6_strict_message_sequence Htest Ktest Stest).2.2.2.2 testStart.1
     (serializeHM ⟨.serverHello, serServerHello testSH⟩)
     (serializeHM ⟨.certificate, serCertificate testCert⟩)
     (serializeHM ⟨.certificateVerify, serCertificateVerify
       ⟨Stest.sign (leBytes 4 5) (transcriptHash Htest
         (testStart.1.handshake_messages ++
          [serializeHM ⟨.serverHello, serServerHello testSH⟩,
           serializeHM ⟨.certificate, serCertificate testCert⟩]))⟩⟩)
     (serializeHM ⟨.applicationData, []⟩) []
     ⟨.serverHello, serServerHello testSH⟩ testSH
     (leBytes 4 9 ++ leBytes 4 3) testSS
     ⟨.certificate, serCertificate testCert⟩ testCert
     ⟨.certificateVerify, serCertificateVerify
       ⟨Stest.sign (leBytes 4 5) (transcriptHash Htest
         (testStart.1.handshake_messages ++
          [serializeHM ⟨.serverHello, serServerHello testSH⟩,
           serializeHM ⟨.certificate, serCertificate testCert⟩]))⟩⟩
     ⟨Stest.sign (leBytes 4 5) (transcriptHash Htest
       (testStart.1.handshake_messages ++
        [serializeHM ⟨.serverHello, serServerHello testSH⟩,
         serializeHM ⟨.certificate, serCertificate testCert⟩]))⟩
     ⟨.applicationData, []⟩
     (by decide) (by decide) (by decide) (by decide) (by decide) (by decide)
     (by decide) (by decide) (by decide) (by decide) (by decide) (by decide)
     (by decide) (by decide) (by decide) (by decide) (by decide)⟩

/-- C8 witness: the statement instantiated at the test AEAD and a
concrete fresh cipher. -/
theorem C8_nonce_uniqueness_witness :
    (TrafficCipher.new (leBytes 32 7) (leBytes 12 5)).compute_nonce.length = 12 ∧
    (((TrafficCipher.new (leBytes 32 7) (leBytes 12 5)).encrypt Atest [byte 1]).2.encrypt
        Atest [byte 1]).1.1 ≠
      ((TrafficCipher.new (leBytes 32 7) (leBytes 12 5)).encrypt Atest [byte 1]).1.1 :=
  ⟨(C8_nonce_uniqueness Atest (TrafficCipher.new (leBytes 32 7) (leBytes 12 5)) [byte 1]
      (leBytes_length 12 5)).1,
   (C8_nonce_uniqueness Atest (TrafficCipher.new (leBytes 32 7) (leBytes 12 5)) [byte 1]
      (leBytes_length 12 5)).2.2.2.2.2.2.2⟩

end PqTls
